import Mathlib

/-!
Shallow embedding of `allennlp/models/next_token_lm.py` (class `NextTokenLM`).

Tensors are modelled as nested lists of real numbers (floating point is
modelled by exact real arithmetic); integer id tensors as nested lists of
naturals (token/vocabulary ids are non-negative int64 values).  The external
collaborators (text field embedder, contextualizer, vocabulary) are modelled
as records carrying their declared dimensions together with the function the
model calls.  Python exceptions are modelled by an `Except` result, paired
with the post-call object state so that frame properties are expressible.
-/

namespace AllenNLP

/-- A 1-D float tensor. -/
abbrev Vec := List ℝ

/-- A 2-D float tensor, row major. -/
abbrev Mat := List Vec

/-- A 3-D float tensor. -/
abbrev Tensor3 := List Mat

/-- A 1-D integer-id tensor. -/
abbrev LongTensor1 := List ℕ

/-- A 2-D integer-id tensor of shape (batch_size, sequence_length). -/
abbrev LongTensor2 := List LongTensor1

/-- The `tokens` argument of `forward`: `Dict[str, torch.LongTensor]`, a
mapping from indexer name to a (batch_size, sequence_length) id tensor,
modelled as an association list in insertion order. -/
abbrev TokenDict := List (String × LongTensor2)

/-- The `target_ids` argument of `forward`: `Dict[str, torch.LongTensor]`
mapping indexer name to a 1-D tensor of target ids.  (The spec also allows a
(batch, 1) tensor; its content is the same length-batch list of ids, and both
`.size()[0]` and `.view(batch_size)` agree on it, so it is modelled by the
same flat list.) -/
abbrev TargetDict := List (String × LongTensor1)

/-- Python dictionary subscript `d[key]`: `some` value on hit, `none` models
the `KeyError` raise site. -/
def dictGet? {α : Type} (d : List (String × α)) (key : String) : Option α :=
  (d.find? (fun p => p.1 == key)).map (fun p => p.2)

/-- Python exceptions raised (directly or by the runtime) inside
`NextTokenLM.forward`. -/
inductive PyError where
  | typeError
  | keyError
  | valueError (msg : String)
deriving DecidableEq

/-- Shape predicate for a 3-D tensor: `t.hasShape a b c` says the nested
lists form a rectangular (a, b, c) tensor. -/
def Tensor3.hasShape (t : Tensor3) (a b c : ℕ) : Prop :=
  t.length = a ∧ ∀ m ∈ t, m.length = b ∧ ∀ v ∈ m, v.length = c

instance (t : Tensor3) (a b c : ℕ) : Decidable (t.hasShape a b c) := by
  unfold Tensor3.hasShape; infer_instance

/-- The list of axis sizes of a (rectangular) 3-D nested list, read off the
first elements, for any entry type. -/
def shape3 {α : Type} (t : List (List (List α))) : List ℕ :=
  [t.length, (t.headD []).length, ((t.headD []).headD []).length]

/-- Dot product of two vectors. -/
def dot (a b : Vec) : ℝ := (List.zipWith (· * ·) a b).sum

/-- Model of `torch.nn.Linear`: `in_features`/`out_features` record the
allocation shape, `weight` is an (out_features, in_features) matrix and
`bias` an out_features vector. -/
structure Linear where
  in_features : ℕ
  out_features : ℕ
  weight : Mat
  bias : Vec

/-- Applying a linear layer to a single feature vector:
`y = weight · x + bias`, one output coordinate per weight row. -/
def Linear.applyVec (l : Linear) (x : Vec) : Vec :=
  List.zipWith (fun row b => dot row x + b) l.weight l.bias

/-- Allocation `torch.nn.Linear(din, dout)`.  Torch draws the initial values
at random; only the parameter shapes are modelled (values set to zero). -/
def Linear.new (din dout : ℕ) : Linear :=
  { in_features := din, out_features := dout,
    weight := List.replicate dout (List.replicate din 0),
    bias := List.replicate dout 0 }

/-- Structural invariant of a `torch.nn.Linear`: the parameter shapes match
the declared dimensions. -/
def Linear.wf (l : Linear) : Prop :=
  l.weight.length = l.out_features ∧ l.bias.length = l.out_features ∧
    ∀ r ∈ l.weight, r.length = l.in_features

instance (l : Linear) : Decidable l.wf := by
  unfold Linear.wf; infer_instance

/-- Modelled from the spec: `allennlp.training.metrics.Perplexity` is code of
this repository that is not under `src/`.  Per the spec it is a running
accumulator whose value is the exponential of the mean observed loss, cleared
back to a no-observations state on reset. -/
structure Perplexity where
  total_loss : ℝ
  count : ℕ

/-- The initial, no-observations accumulator state. -/
def Perplexity.init : Perplexity := { total_loss := 0, count := 0 }

/-- Feeding one loss observation into the accumulator
(the call `self._perplexity(loss)`). -/
def Perplexity.update (p : Perplexity) (loss : ℝ) : Perplexity :=
  { total_loss := p.total_loss + loss, count := p.count + 1 }

/-- Modelled from the spec: `Perplexity.get_metric(reset)` returns
exp(mean loss) over the observations so far (0 when there are none) and, when
`reset` is set, clears the accumulator to its initial state.  Returned as
(value, new state). -/
noncomputable def Perplexity.get_metric (p : Perplexity) (reset : Bool) :
    ℝ × Perplexity :=
  (if p.count = 0 then 0 else Real.exp (p.total_loss / p.count),
   if reset then Perplexity.init else p)

/-- External collaborator `TextFieldEmbedder`: its declared output dimension
(`get_output_dim()`) and the embedding call `embedder(tokens)`. -/
structure TextFieldEmbedder where
  get_output_dim : ℕ
  call : TokenDict → Tensor3

/-- External collaborator `Seq2SeqEncoder` (the contextualizer): declared
input/output dimensions and the call `contextualizer(embeddings, mask)`. -/
structure Seq2SeqEncoder where
  get_input_dim : ℕ
  get_output_dim : ℕ
  call : Tensor3 → LongTensor2 → Tensor3

/-- External collaborator `Vocabulary`: `get_vocab_size(namespace)`. -/
structure Vocabulary where
  get_vocab_size : String → ℕ

/-- `ConfigurationError` from `allennlp.common.checks`. -/
structure ConfigurationError where
  message : String
deriving DecidableEq

/-- Modelled from the spec: `allennlp.common.checks.check_dimensions_match`
is code of this repository that is not under `src/`.  Per the spec it raises
a `ConfigurationError` exactly when the two dimensions differ. -/
def check_dimensions_match (dim1 dim2 : ℕ) (n1 n2 : String) :
    Except ConfigurationError Unit :=
  if dim1 ≠ dim2 then
    .error { message := n1 ++ " must match " ++ n2 }
  else
    .ok ()

/-- Modelled from the spec: `allennlp.nn.util.get_text_field_mask` is code of
this repository that is not under `src/`.  Per the spec it derives a padding
mask of shape (batch_size, sequence_length) from the embedding tensor; only
its shape is relevant here, since masking is consumed opaquely by the
contextualizer collaborator. -/
def get_text_field_mask (embeddings : Tensor3) : LongTensor2 :=
  embeddings.map (fun row => row.map (fun _ => 1))

/-- The state of a constructed `NextTokenLM` model (its `self` fields). -/
structure NextTokenLM where
  text_field_embedder : TextFieldEmbedder
  contextualizer : Option Seq2SeqEncoder
  language_model_head : Linear
  perplexity : Perplexity
  dropout : ℝ

/-- `NextTokenLM.__init__`: checks the embedder/contextualizer dimensions
(raising `ConfigurationError` on mismatch), picks `softmax_dim`, and
allocates `torch.nn.Linear(softmax_dim, vocab.get_vocab_size(target_namespace))`.
The optional `InitializerApplicator` argument is omitted: it only rewrites
parameter values, which are abstracted in `Linear.new`. -/
def NextTokenLM.init (vocab : Vocabulary)
    (text_field_embedder : TextFieldEmbedder)
    (contextualizer : Option Seq2SeqEncoder)
    (target_namespace : String) (dropout : ℝ) :
    Except ConfigurationError NextTokenLM :=
  match contextualizer with
  | some c =>
    match check_dimensions_match text_field_embedder.get_output_dim
        c.get_input_dim "text field embedder output" "contextualizer input" with
    | .error e => .error e
    | .ok _ =>
      .ok { text_field_embedder := text_field_embedder,
            contextualizer := some c,
            language_model_head :=
              Linear.new c.get_output_dim (vocab.get_vocab_size target_namespace),
            perplexity := Perplexity.init,
            dropout := dropout }
  | none =>
    .ok { text_field_embedder := text_field_embedder,
          contextualizer := none,
          language_model_head :=
            Linear.new text_field_embedder.get_output_dim
              (vocab.get_vocab_size target_namespace),
          perplexity := Perplexity.init,
          dropout := dropout }

/-- The `softmax_dim` chosen by `__init__`: the contextualizer's output
dimension when one is supplied, otherwise the embedder's output dimension. -/
def softmax_input_dim (text_field_embedder : TextFieldEmbedder)
    (contextualizer : Option Seq2SeqEncoder) : ℕ :=
  match contextualizer with
  | some c => c.get_output_dim
  | none => text_field_embedder.get_output_dim

/-- `torch.nn.Dropout` applied in the deterministic evaluation semantics:
with rate 0 or in eval mode, dropout is the identity. -/
def dropout_eval (_rate : ℝ) (v : Vec) : Vec := v

/-- Lines 54-61 of `forward`: the embeddings, contextualized when a
contextualizer is configured (`contextual_embeddings`). -/
def contextualOf (m : NextTokenLM) (tokens : TokenDict) : Tensor3 :=
  let embeddings := m.text_field_embedder.call tokens
  match m.contextualizer with
  | some c => c.call embeddings (get_text_field_mask embeddings)
  | none => embeddings

/-- Row access `mat[-1]`: the row at index `length - 1`. -/
def lastOf (mat : Mat) : Vec := mat.getD (mat.length - 1) []

/-- Lines 63-64 of `forward`:
`batch_index = torch.arange(0, batch_size).long().unsqueeze(1)` followed by
`contextual_embeddings[batch_index, -1]`.  `batch_index` has shape
(batch_size, 1) and `-1` broadcasts against it (NumPy-style advanced
indexing), so the result has shape (batch_size, 1, encoding_dim) with entry
`[i][0]` equal to row `sequence_length - 1` of batch element `i`. -/
def lastPositionSlice (contextual : Tensor3) (batch_size : ℕ) : Tensor3 :=
  (List.range batch_size).map (fun i => [lastOf (contextual.getD i [])])

/-- Line 66 of `forward`:
`target_logits = self._language_model_head(self._dropout(final_embeddings))`,
shape (batch_size, 1, vocab_size). -/
def targetLogitsOf (m : NextTokenLM) (tokens : TokenDict) (batch_size : ℕ) :
    Tensor3 :=
  (lastPositionSlice (contextualOf m tokens) batch_size).map
    (fun row => row.map
      (fun v => m.language_model_head.applyVec (dropout_eval m.dropout v)))

/-- `tensor.size(-1)`: the trailing axis size of a (rectangular) 3-D
tensor. -/
def sizeLast (t : Tensor3) : ℕ := ((t.headD []).headD []).length

/-- `torch.nn.functional.softmax(v, dim=-1)` on one vector. -/
noncomputable def softmax (v : Vec) : Vec :=
  v.map (fun x => Real.exp x / (v.map Real.exp).sum)

/-- The (index, value) pairs of `v` sorted by value, descending, then cut to
the first `k`: the selection underlying `torch.topk(v, k)`. -/
noncomputable def topkPairs (v : Vec) (k : ℕ) : List (ℕ × ℝ) :=
  ((v.enum).mergeSort (fun a b => decide (b.2 ≤ a.2))).take k

/-- `torch.topk(v, k)` on one vector: the `k` largest entries in descending
order, paired with their indices into `v`. -/
noncomputable def topk (v : Vec) (k : ℕ) : Vec × List ℕ :=
  ((topkPairs v k).map (fun p => p.2), (topkPairs v k).map (fun p => p.1))

/-- `tensor.view(r, c)` on a 3-D tensor: row-major flattening regrouped into
`r` rows of `c` entries. -/
def view2 (t : Tensor3) (r c : ℕ) : Mat :=
  (List.range r).map (fun i => ((t.flatten.flatten).drop (i * c)).take c)

/-- `torch.nn.functional.cross_entropy` for one row: negative log of the
softmax probability at the target index. -/
noncomputable def cross_entropy_single (logits : Vec) (target : ℕ) : ℝ :=
  -Real.log ((softmax logits).getD target 0)

/-- `torch.nn.functional.cross_entropy(logits, targets)` with the default
mean reduction over the batch. -/
noncomputable def cross_entropy (logits : Mat) (targets : List ℕ) : ℝ :=
  (List.zipWith cross_entropy_single logits targets).sum / logits.length

/-- The result record of a successful `forward` call
(`output_dict`: top_probs, top_indices, and the loss entry). -/
structure ForwardOutput where
  top_probs : Tensor3
  top_indices : List (List (List ℕ))
  loss : Option ℝ

/-- `NextTokenLM.forward(tokens, target_ids)`.  Mirrors the source line by
line: `len(target_ids)` is evaluated unconditionally, so a `None`
`target_ids` hits Python's `TypeError` (`len` of `NoneType`); a supplied
mapping with other than one indexer raises `ValueError`; `tokens['tokens']`
raises `KeyError` when absent; a batch-size mismatch between targets and
tokens raises `ValueError`.  After extraction `target_ids` is a tensor, so
the source's trailing `if target_ids is not None` branch always runs and the
loss is always computed and fed to the perplexity accumulator.  The result is
the Python return value (or the exception) paired with the post-call object
state. -/
noncomputable def NextTokenLM.forward (m : NextTokenLM) (tokens : TokenDict)
    (target_ids : Option TargetDict) :
    Except PyError ForwardOutput × NextTokenLM :=
  match target_ids with
  | none => (.error .typeError, m)
  | some td =>
    if td.length ≠ 1 then
      (.error (.valueError ("Found " ++ toString td.length ++
        " indexers for target_ids, not sure what to do")), m)
    else
      let t : LongTensor1 := (td.map (fun p => p.2)).headD []
      match dictGet? tokens "tokens" with
      | none => (.error .keyError, m)
      | some tok =>
        let batch_size := tok.length
        if t.length ≠ batch_size then
          (.error (.valueError ("Number of targets should match batch size" ++
            " are not equal")), m)
        else
          let target_logits := targetLogitsOf m tokens batch_size
          let vocab_size := sizeLast target_logits
          let probs := target_logits.map (fun row => row.map softmax)
          let k := min vocab_size 20
          let top_probs := probs.map (fun row => row.map (fun v => (topk v k).1))
          let top_indices := probs.map (fun row => row.map (fun v => (topk v k).2))
          let logits2 := view2 target_logits batch_size vocab_size
          let loss := cross_entropy logits2 t
          (.ok { top_probs := top_probs, top_indices := top_indices,
                 loss := some loss },
           { m with perplexity := m.perplexity.update loss })

/-- `NextTokenLM.get_metrics(reset)`: reads the perplexity accumulator,
returning the metric value and the post-call object state. -/
noncomputable def NextTokenLM.get_metrics (m : NextTokenLM) (reset : Bool) :
    ℝ × NextTokenLM :=
  let r := m.perplexity.get_metric reset
  (r.1, { m with perplexity := r.2 })

/-- The (batch_size, vocab_size) matrix of per-batch-element logits: the
singleton middle axis of `targetLogitsOf` flattened away.  Row `b` is the
logits vector of batch element `b`. -/
noncomputable def rowLogits (m : NextTokenLM) (tokens : TokenDict)
    (batch_size : ℕ) : Mat :=
  (targetLogitsOf m tokens batch_size).map List.flatten

/-- The logits vector of one batch element: the linear head applied to the
dropped-out last-position representation. -/
noncomputable def rowLogit (m : NextTokenLM) (tokens : TokenDict) (i : ℕ) :
    Vec :=
  m.language_model_head.applyVec
    (dropout_eval m.dropout (lastOf ((contextualOf m tokens).getD i [])))

/-- Reference cross-entropy, written from the spec's words: the mean over
the batch of the negative log softmax probability at the target id, computed
directly from the per-row logits. -/
noncomputable def reference_cross_entropy (logits : Mat) (targets : List ℕ) :
    ℝ :=
  (((logits.zip targets).map
      (fun p => -Real.log ((softmax p.1).getD p.2 0))).sum) / logits.length

/-- Folding a sequence of loss observations into a model's perplexity
accumulator: the accumulator effect of a sequence of `forward` calls with
targets supplied, abstracted to the losses they feed in. -/
def applyLossUpdates (m : NextTokenLM) (losses : List ℝ) : NextTokenLM :=
  losses.foldl
    (fun mm l => { mm with perplexity := mm.perplexity.update l }) m

/-! ### Basic lemmas about the numeric primitives -/

theorem Linear.applyVec_length (l : Linear) (x : Vec) (hw : l.wf) :
    (l.applyVec x).length = l.out_features := by
  obtain ⟨h1, h2, -⟩ := hw
  simp [Linear.applyVec, List.length_zipWith, h1, h2]

theorem softmax_length (v : Vec) : (softmax v).length = v.length := by
  simp [softmax]

theorem softmax_mem_bounds {v : Vec} {x : ℝ} (hx : x ∈ softmax v) :
    0 < x ∧ x ≤ 1 := by
  rw [softmax, List.mem_map] at hx
  obtain ⟨a, ha, rfl⟩ := hx
  have hmem : Real.exp a ∈ v.map Real.exp := List.mem_map_of_mem _ ha
  have hpos : ∀ y ∈ v.map Real.exp, 0 < y := by
    intro y hy
    rw [List.mem_map] at hy
    obtain ⟨b, -, rfl⟩ := hy
    exact Real.exp_pos b
  have hsum : 0 < (v.map Real.exp).sum :=
    List.sum_pos _ hpos (List.ne_nil_of_mem hmem)
  refine ⟨div_pos (Real.exp_pos a) hsum, ?_⟩
  rw [div_le_one hsum]
  exact List.single_le_sum (fun y hy => le_of_lt (hpos y hy)) _ hmem

theorem softmax_getD_mem {v : Vec} {t : ℕ} (ht : t < v.length) :
    (softmax v).getD t 0 ∈ softmax v := by
  have ht' : t < (softmax v).length := by rwa [softmax_length]
  rw [List.getD_eq_getElem _ _ ht']
  exact List.getElem_mem ht'

theorem cross_entropy_single_nonneg {logits : Vec} {t : ℕ}
    (ht : t < logits.length) : 0 ≤ cross_entropy_single logits t := by
  have hmem := softmax_getD_mem ht
  obtain ⟨hpos, hle⟩ := softmax_mem_bounds hmem
  rw [cross_entropy_single]
  have := Real.log_nonpos (le_of_lt hpos) hle
  linarith

/-! ### Lemmas about the top-k selection -/

theorem topkPairs_length (v : Vec) (k : ℕ) :
    (topkPairs v k).length = min k v.length := by
  rw [topkPairs, List.length_take, List.length_mergeSort, List.enum_length]

theorem topkPairs_sorted (v : Vec) (k : ℕ) :
    (topkPairs v k).Pairwise (fun a b => b.2 ≤ a.2) := by
  have hs := @List.sorted_mergeSort (ℕ × ℝ)
    (fun a b => decide (b.2 ≤ a.2))
    (fun a b c hab hbc => by
      rw [decide_eq_true_iff] at hab hbc ⊢
      exact le_trans hbc hab)
    (fun a b => by
      rcases le_total b.2 a.2 with h | h <;> simp [h])
    (v.enum)
  have hp : ((v.enum).mergeSort
      (fun a b => decide (b.2 ≤ a.2))).Pairwise (fun a b => b.2 ≤ a.2) :=
    hs.imp (fun h => decide_eq_true_iff.mp h)
  exact List.Pairwise.sublist (List.take_sublist _ _) hp

theorem topkPairs_mem {v : Vec} {k : ℕ} {p : ℕ × ℝ}
    (hp : p ∈ topkPairs v k) : p.1 < v.length ∧ v.getD p.1 0 = p.2 := by
  have h1 : p ∈ (v.enum).mergeSort (fun a b => decide (b.2 ≤ a.2)) :=
    List.take_subset _ _ hp
  have h2 : p ∈ v.enum := (List.mergeSort_perm _ _).mem_iff.mp h1
  rw [List.mem_enum_iff_getElem?] at h2
  obtain ⟨hlt, hget⟩ := List.getElem?_eq_some.mp h2
  exact ⟨hlt, by rw [List.getD_eq_getElem _ _ hlt, hget]⟩

theorem topk_fst_length (v : Vec) (k : ℕ) :
    (topk v k).1.length = min k v.length := by
  simp [topk, topkPairs_length]

theorem topk_snd_length (v : Vec) (k : ℕ) :
    (topk v k).2.length = min k v.length := by
  simp [topk, topkPairs_length]

theorem topk_fst_mem {v : Vec} {k : ℕ} {x : ℝ} (hx : x ∈ (topk v k).1) :
    x ∈ v := by
  rw [topk] at hx
  simp only [List.mem_map] at hx
  obtain ⟨p, hp, rfl⟩ := hx
  obtain ⟨hlt, hval⟩ := topkPairs_mem hp
  rw [← hval, List.getD_eq_getElem _ _ hlt]
  exact List.getElem_mem hlt

theorem topk_fst_sorted (v : Vec) (k : ℕ) :
    (topk v k).1.Pairwise (fun a b => b ≤ a) := by
  rw [topk]
  exact (topkPairs_sorted v k).map _ (fun a b h => h)

theorem topk_aligned (v : Vec) (k : ℕ) {j : ℕ}
    (hj : j < (topkPairs v k).length) :
    (topk v k).1.getD j 0 = v.getD ((topk v k).2.getD j 0) 0 := by
  have hj1 : j < ((topkPairs v k).map (fun p => p.2)).length := by
    rwa [List.length_map]
  have hj2 : j < ((topkPairs v k).map (fun p => p.1)).length := by
    rwa [List.length_map]
  rw [topk]
  simp only [List.getD_eq_getElem _ _ hj1, List.getD_eq_getElem _ _ hj2,
    List.getElem_map]
  have hmem : (topkPairs v k)[j] ∈ topkPairs v k := List.getElem_mem hj
  exact ((topkPairs_mem hmem).2).symm

/-! ### Structural lemmas about the forward pipeline -/

theorem targetLogitsOf_eq (m : NextTokenLM) (tokens : TokenDict) (B : ℕ) :
    targetLogitsOf m tokens B =
      (List.range B).map (fun i => [rowLogit m tokens i]) := by
  rw [targetLogitsOf, lastPositionSlice, List.map_map]
  rfl

theorem rowLogit_length (m : NextTokenLM) (tokens : TokenDict) (i : ℕ)
    (hw : m.language_model_head.wf) :
    (rowLogit m tokens i).length = m.language_model_head.out_features := by
  rw [rowLogit]
  exact Linear.applyVec_length _ _ hw

theorem rowLogits_eq (m : NextTokenLM) (tokens : TokenDict) (B : ℕ) :
    rowLogits m tokens B = (List.range B).map (rowLogit m tokens) := by
  rw [rowLogits, targetLogitsOf_eq, List.map_map]
  simp [Function.comp]

theorem sizeLast_targetLogitsOf (m : NextTokenLM) (tokens : TokenDict)
    {B : ℕ} (hB : 0 < B) (hw : m.language_model_head.wf) :
    sizeLast (targetLogitsOf m tokens B) =
      m.language_model_head.out_features := by
  obtain ⟨n, rfl⟩ := Nat.exists_eq_succ_of_ne_zero (Nat.pos_iff_ne_zero.mp hB)
  rw [targetLogitsOf_eq, List.range_succ_eq_map]
  simp [sizeLast, rowLogit_length m tokens 0 hw]

theorem flatten_map_singleton {α : Type} (l : List α) :
    (l.map (fun a => [a])).flatten = l := by
  induction l with
  | nil => rfl
  | cons a l ih => simp [ih]

theorem view2_of_rows {c : ℕ} (vs : List Vec)
    (hv : ∀ v ∈ vs, v.length = c) :
    view2 (vs.map (fun v => [v])) vs.length c = vs := by
  induction vs with
  | nil => simp [view2]
  | cons v vs ih =>
    have hvlen : v.length = c := hv v (List.mem_cons_self _ _)
    have hflat : (((v :: vs).map (fun v => [v])).flatten).flatten =
        v ++ vs.flatten := by
      rw [List.map_cons, List.flatten_cons, flatten_map_singleton]
      simp
    rw [List.length_cons, view2, hflat, List.range_succ_eq_map, List.map_cons,
      List.map_map]
    have hhead : ((v ++ vs.flatten).drop (0 * c)).take c = v := by
      rw [Nat.zero_mul, List.drop_zero, List.take_left' hvlen]
    have htail : (List.range vs.length).map
        ((fun i => ((v ++ vs.flatten).drop (i * c)).take c) ∘ Nat.succ) =
        vs := by
      have hcongr : ∀ i ∈ List.range vs.length,
          ((fun i => ((v ++ vs.flatten).drop (i * c)).take c) ∘ Nat.succ) i =
          ((vs.flatten.drop (i * c)).take c) := by
        intro i _
        simp only [Function.comp_apply, Nat.succ_mul]
        rw [Nat.add_comm, ← List.drop_drop, List.drop_left' hvlen]
      rw [List.map_congr_left hcongr]
      have ih' := ih (fun w hw => hv w (List.mem_cons_of_mem _ hw))
      rw [view2] at ih'
      rw [flatten_map_singleton] at ih'
      exact ih'
    rw [hhead, htail]

theorem view2_targetLogits (m : NextTokenLM) (tokens : TokenDict) {B : ℕ}
    (hw : m.language_model_head.wf) :
    view2 (targetLogitsOf m tokens B) B m.language_model_head.out_features =
      rowLogits m tokens B := by
  have hvs : ∀ v ∈ (List.range B).map (rowLogit m tokens),
      v.length = m.language_model_head.out_features := by
    intro v hv
    rw [List.mem_map] at hv
    obtain ⟨i, -, rfl⟩ := hv
    exact rowLogit_length m tokens i hw
  have h := view2_of_rows ((List.range B).map (rowLogit m tokens)) hvs
  rw [List.length_map, List.length_range] at h
  rw [targetLogitsOf_eq, rowLogits_eq]
  rw [List.map_map] at h
  exact h

/-- Full description of a successful `forward` call: with a single-indexer
`target_ids`, a `tokens` mapping containing the `tokens` key, a non-empty
batch and matching batch sizes, `forward` returns the top-k record and loss
built from the per-row logits, and updates the perplexity accumulator with
that loss. -/
theorem forward_ok_spec (m : NextTokenLM) (tokens : TokenDict) (nm : String)
    (t : LongTensor1) (tok : LongTensor2)
    (hw : m.language_model_head.wf)
    (hlk : dictGet? tokens "tokens" = some tok)
    (hB : 0 < tok.length)
    (hlen : t.length = tok.length) :
    m.forward tokens (some [(nm, t)]) =
      (.ok { top_probs := (List.range tok.length).map (fun i =>
               [(topk (softmax (rowLogit m tokens i))
                  (min m.language_model_head.out_features 20)).1]),
             top_indices := (List.range tok.length).map (fun i =>
               [(topk (softmax (rowLogit m tokens i))
                  (min m.language_model_head.out_features 20)).2]),
             loss := some (cross_entropy (rowLogits m tokens tok.length) t) },
       { m with perplexity := m.perplexity.update (cross_entropy (rowLogits m tokens tok.length) t) }) := by
  rw [NextTokenLM.forward]
  simp only [List.length_cons, List.length_nil, Nat.zero_add, ne_eq,
    not_true_eq_false, if_false, List.map_cons, List.map_nil, List.headD_cons,
    hlk, hlen, not_false_eq_true, ite_false, ite_true]
  rw [sizeLast_targetLogitsOf m tokens hB hw,
    view2_targetLogits m tokens hw, targetLogitsOf_eq]
  simp [List.map_map, Function.comp]

/-! ### Error-path lemmas for `forward` -/

theorem forward_none_eq (m : NextTokenLM) (tokens : TokenDict) :
    m.forward tokens none = (.error .typeError, m) := rfl

theorem forward_target_count (m : NextTokenLM) (tokens : TokenDict)
    (td : TargetDict) (h : td.length ≠ 1) :
    m.forward tokens (some td) =
      (.error (.valueError ("Found " ++ toString td.length ++
        " indexers for target_ids, not sure what to do")), m) := by
  rw [NextTokenLM.forward]
  simp [h]

theorem forward_key_error (m : NextTokenLM) (tokens : TokenDict)
    (td : TargetDict) (h1 : td.length = 1)
    (h2 : dictGet? tokens "tokens" = none) :
    m.forward tokens (some td) = (.error .keyError, m) := by
  rw [NextTokenLM.forward]
  simp [h1, h2]

theorem forward_batch_mismatch (m : NextTokenLM) (tokens : TokenDict)
    (nm : String) (t : LongTensor1) (tok : LongTensor2)
    (hlk : dictGet? tokens "tokens" = some tok)
    (hne : t.length ≠ tok.length) :
    m.forward tokens (some [(nm, t)]) =
      (.error (.valueError ("Number of targets should match batch size" ++
        " are not equal")), m) := by
  rw [NextTokenLM.forward]
  simp [hlk, hne]

/-- Raw form of a successful `forward` call, with the output written exactly
as the body computes it (no batch-positivity assumption). -/
theorem forward_ok_raw (m : NextTokenLM) (tokens : TokenDict) (nm : String)
    (t : LongTensor1) (tok : LongTensor2)
    (hlk : dictGet? tokens "tokens" = some tok)
    (hlen : t.length = tok.length) :
    m.forward tokens (some [(nm, t)]) =
      (.ok { top_probs := ((targetLogitsOf m tokens tok.length).map
               (fun row => row.map softmax)).map (fun row => row.map (fun v =>
                 (topk v (min (sizeLast (targetLogitsOf m tokens tok.length)) 20)).1)),
             top_indices := ((targetLogitsOf m tokens tok.length).map
               (fun row => row.map softmax)).map (fun row => row.map (fun v =>
                 (topk v (min (sizeLast (targetLogitsOf m tokens tok.length)) 20)).2)),
             loss := some (cross_entropy (view2 (targetLogitsOf m tokens tok.length)
               tok.length (sizeLast (targetLogitsOf m tokens tok.length))) t) },
       { m with perplexity := m.perplexity.update (cross_entropy (view2 (targetLogitsOf m tokens tok.length) tok.length (sizeLast (targetLogitsOf m tokens tok.length))) t) }) := by
  rw [NextTokenLM.forward]
  simp only [List.length_cons, List.length_nil, Nat.zero_add, ne_eq,
    not_true_eq_false, if_false, List.map_cons, List.map_nil, List.headD_cons,
    hlk, hlen, not_false_eq_true, ite_false, ite_true]

theorem perplexity_update_ne (p : Perplexity) (l : ℝ) :
    p.update l ≠ p := by
  intro h
  have hc := congrArg Perplexity.count h
  simp [Perplexity.update] at hc

/-! ### Concrete instances used by witnesses and counterexamples -/

/-- A concrete embedder: declared output dimension 2, mapping every token
batch to a fixed (1, 2, 2) embedding tensor. -/
def cEmbedder : TextFieldEmbedder :=
  { get_output_dim := 2, call := fun _ => [[[1, 0], [0, 1]]] }

/-- A concrete linear head of shape (2 → 3), satisfying `Linear.wf`. -/
def cHead : Linear :=
  { in_features := 2, out_features := 3,
    weight := [[1, 0], [0, 1], [1, 1]], bias := [0, 0, 0] }

/-- A concrete model with no contextualizer, embedding dimension 2 and
vocabulary size 3. -/
def cModel : NextTokenLM :=
  { text_field_embedder := cEmbedder, contextualizer := none,
    language_model_head := cHead, perplexity := Perplexity.init,
    dropout := 0 }

/-! ### Claims -/

/-- C1: the claim states that calling `forward` with the TargetBatch absent
succeeds and returns top_probs/top_indices without a loss entry.  The code
instead evaluates `len(target_ids)` before any `None` check, so
`forward(tokens, None)` always raises Python's `TypeError` (`len` of
`NoneType`) and no output is produced.  This theorem evaluates the code at
the failing input. -/
theorem claim1_forward_without_targets_raises (m : NextTokenLM)
    (tokens : TokenDict) :
    m.forward tokens none = (.error .typeError, m) :=
  forward_none_eq m tokens

/-- C2 (counterexample): the claim states that a TokenBatch with more than
one indexer makes `forward` raise.  At the concrete input below the tokens
mapping has two indexers, yet `forward` with a valid single-indexer
TargetBatch returns successfully. -/
theorem claim2_counterexample :
    ([("tokens", [[5, 6]]), ("extra", [[7, 8]])] : TokenDict).length = 2 ∧
    (cModel.forward [("tokens", [[5, 6]]), ("extra", [[7, 8]])]
      (some [("tokens", [0])])).1.isOk = true := by
  refine ⟨rfl, ?_⟩
  rw [forward_ok_spec cModel _ "tokens" [0] [[5, 6]] (by decide) (by decide)
    (by decide) (by decide)]
  rfl

/-- C2 (amended): the indexer-count check in `forward` applies to
`target_ids`, not to `tokens`: a supplied target mapping with zero or more
than one indexer raises the invalid-input `ValueError` and leaves the model
state unchanged, whatever the tokens mapping is. -/
theorem claim2_target_indexer_count (m : NextTokenLM) (tokens : TokenDict)
    (td : TargetDict) (h : td.length ≠ 1) :
    m.forward tokens (some td) =
      (.error (.valueError ("Found " ++ toString td.length ++
        " indexers for target_ids, not sure what to do")), m) :=
  forward_target_count m tokens td h

/-- C2 (witness): the amended theorem applied at a concrete zero-indexer
target mapping. -/
theorem claim2_witness :
    cModel.forward [("tokens", [[5, 6]])] (some []) =
      (.error (.valueError ("Found " ++ toString (0 : ℕ) ++
        " indexers for target_ids, not sure what to do")), cModel) :=
  claim2_target_indexer_count cModel [("tokens", [[5, 6]])] [] (by decide)

/-- C10: `forward` requires the single indexer of the tokens mapping to be
named exactly `tokens`: the batch size is read with a `tokens['tokens']`
subscript, so a single-indexer tokens mapping under any other name raises a
`KeyError` (a lookup error) even with a valid single-indexer target
mapping. -/
theorem claim10_tokens_key_required (m : NextTokenLM) (nm : String)
    (tv : LongTensor2) (td : TargetDict) (h1 : td.length = 1)
    (h2 : nm ≠ "tokens") :
    m.forward [(nm, tv)] (some td) = (.error .keyError, m) := by
  have hbeq : (nm == "tokens") = false := beq_eq_false_iff_ne.mpr h2
  exact forward_key_error m [(nm, tv)] td h1 (by simp [dictGet?, hbeq])

/-- C10 (witness): the theorem applied at a concrete tokens mapping whose
sole indexer is named `words`. -/
theorem claim10_witness :
    cModel.forward [("words", [[0]])] (some [("words", [0])]) =
      (.error .keyError, cModel) :=
  claim10_tokens_key_required cModel "words" [[0]] [("words", [0])]
    (by decide) (by decide)

/-- C9: a `forward` call mutates exactly the perplexity accumulator, and
does so exactly when it completes without raising (which requires a supplied
TargetBatch); on any raised error no state is mutated, and on success the
embedder, contextualizer, linear-head parameters and dropout rate are
unchanged while the perplexity accumulator is updated with the computed loss
(a strict change: its observation count grows). -/
theorem claim9_frame_effect (m : NextTokenLM) (tokens : TokenDict)
    (tgt : Option TargetDict) :
    ((m.forward tokens tgt).1.isOk = true → tgt ≠ none) ∧
    (∀ e, (m.forward tokens tgt).1 = .error e →
      (m.forward tokens tgt).2 = m) ∧
    (∀ out, (m.forward tokens tgt).1 = .ok out →
      ∃ l, out.loss = some l ∧
        (m.forward tokens tgt).2 =
          { m with perplexity := m.perplexity.update l } ∧
        (m.forward tokens tgt).2.perplexity ≠ m.perplexity ∧
        (m.forward tokens tgt).2.text_field_embedder = m.text_field_embedder ∧
        (m.forward tokens tgt).2.contextualizer = m.contextualizer ∧
        (m.forward tokens tgt).2.language_model_head =
          m.language_model_head ∧
        (m.forward tokens tgt).2.dropout = m.dropout) := by
  rcases tgt with - | td
  · rw [forward_none_eq]
    exact ⟨fun h => Bool.noConfusion h, fun e _ => rfl,
      fun out h => by simp at h⟩
  · by_cases h1 : td.length = 1
    · obtain ⟨⟨nm, t⟩, rfl⟩ := List.length_eq_one.mp h1
      cases hlk : dictGet? tokens "tokens" with
      | none =>
        rw [forward_key_error m tokens _ h1 hlk]
        exact ⟨fun _ => by simp, fun e _ => rfl, fun out h => by simp at h⟩
      | some tok =>
        by_cases h2 : t.length = tok.length
        · rw [forward_ok_raw m tokens nm t tok hlk h2]
          refine ⟨by simp, fun e h => by simp at h, fun out h => ?_⟩
          simp only [Except.ok.injEq] at h
          subst h
          refine ⟨_, rfl, rfl, perplexity_update_ne _ _, rfl, rfl, rfl, rfl⟩
        · rw [forward_batch_mismatch m tokens nm t tok hlk h2]
          exact ⟨by simp, fun e _ => rfl, fun out h => by simp at h⟩
    · rw [forward_target_count m tokens td h1]
      exact ⟨by simp, fun e _ => rfl, fun out h => by simp at h⟩

theorem zipWith_ce_nonneg :
    ∀ (L : Mat) (ts : List ℕ), (∀ p ∈ L.zip ts, p.2 < p.1.length) →
      0 ≤ (List.zipWith cross_entropy_single L ts).sum := by
  intro L
  induction L with
  | nil => intro ts _; simp
  | cons l L ih =>
    intro ts h
    cases ts with
    | nil => simp
    | cons c ts =>
      simp only [List.zipWith_cons_cons, List.sum_cons]
      have h1 : c < l.length := h (l, c) (by simp [List.zip_cons_cons])
      have h2 := ih ts (fun p hp => h p (by simp [List.zip_cons_cons, hp]))
      have h3 := cross_entropy_single_nonneg h1
      linarith

theorem cross_entropy_nonneg (L : Mat) (ts : List ℕ)
    (h : ∀ p ∈ L.zip ts, p.2 < p.1.length) : 0 ≤ cross_entropy L ts := by
  rw [cross_entropy]
  exact div_nonneg (zipWith_ce_nonneg L ts h) (Nat.cast_nonneg _)

theorem Linear.new_wf (din dout : ℕ) : (Linear.new din dout).wf := by
  refine ⟨by simp [Linear.new], by simp [Linear.new], ?_⟩
  intro r hr
  rw [Linear.new] at hr
  simp only [List.mem_replicate] at hr
  simp [Linear.new, hr.2]

/-- C3: with a valid single-indexer TargetBatch of in-vocabulary target ids
and a tokens mapping containing the `tokens` key, `forward` raises exactly
when the target tensor's first dimension differs from the token batch size;
when they are equal it succeeds, and the returned loss entry is a
non-negative scalar (finite, being a real number in the exact-real
semantics). -/
theorem claim3_batch_size_check (m : NextTokenLM) (tokens : TokenDict)
    (nm : String) (t : LongTensor1) (tok : LongTensor2)
    (hw : m.language_model_head.wf)
    (hlk : dictGet? tokens "tokens" = some tok)
    (hB : 0 < tok.length)
    (hid : ∀ i ∈ t, i < m.language_model_head.out_features) :
    ((m.forward tokens (some [(nm, t)])).1.isOk = true ↔
      t.length = tok.length) ∧
    (t.length = tok.length →
      ∃ out l, (m.forward tokens (some [(nm, t)])).1 = .ok out ∧
        out.loss = some l ∧ 0 ≤ l) := by
  have hloss : ∀ heq : t.length = tok.length,
      0 ≤ cross_entropy (rowLogits m tokens tok.length) t := by
    intro heq
    apply cross_entropy_nonneg
    rintro ⟨a, b⟩ hp
    obtain ⟨hp1, hp2⟩ := List.of_mem_zip hp
    rw [rowLogits_eq, List.mem_map] at hp1
    obtain ⟨i, -, rfl⟩ := hp1
    rw [rowLogit_length m tokens i hw]
    exact hid b hp2
  constructor
  · constructor
    · intro hok
      by_contra hne
      rw [forward_batch_mismatch m tokens nm t tok hlk hne] at hok
      exact Bool.noConfusion hok
    · intro heq
      rw [forward_ok_spec m tokens nm t tok hw hlk hB heq]
      rfl
  · intro heq
    rw [forward_ok_spec m tokens nm t tok hw hlk hB heq]
    exact ⟨_, _, rfl, rfl, hloss heq⟩

/-- C3 (witness): the theorem applied at a concrete model with vocabulary
size 3, one batch element, and target id 2. -/
theorem claim3_witness :
    ((cModel.forward [("tokens", [[1, 2]])] (some [("tokens", [2])])).1.isOk
        = true ↔ ([2] : LongTensor1).length = ([[1, 2]] : LongTensor2).length) ∧
    (([2] : LongTensor1).length = ([[1, 2]] : LongTensor2).length →
      ∃ out l,
        (cModel.forward [("tokens", [[1, 2]])] (some [("tokens", [2])])).1 =
          .ok out ∧ out.loss = some l ∧ 0 ≤ l) :=
  claim3_batch_size_check cModel [("tokens", [[1, 2]])] "tokens" [2] [[1, 2]]
    (by decide) (by decide) (by decide) (by decide)

/-- C4: construction raises a `ConfigurationError` exactly when a
contextualizer is supplied whose declared input dimension differs from the
embedder's declared output dimension; otherwise it succeeds and allocates
the linear head from `softmax_input_dim` (contextualizer output dimension if
present, else embedder output dimension) to the vocabulary size of the
target namespace. -/
theorem claim4_construction (vocab : Vocabulary) (emb : TextFieldEmbedder)
    (ctx : Option Seq2SeqEncoder) (ns : String) (dr : ℝ) :
    ((∃ e, NextTokenLM.init vocab emb ctx ns dr = .error e) ↔
      (∃ c, ctx = some c ∧ c.get_input_dim ≠ emb.get_output_dim)) ∧
    (∀ mdl, NextTokenLM.init vocab emb ctx ns dr = .ok mdl →
      mdl.language_model_head.in_features = softmax_input_dim emb ctx ∧
      mdl.language_model_head.out_features = vocab.get_vocab_size ns ∧
      mdl.language_model_head.wf) := by
  rcases ctx with - | c
  · constructor
    · constructor
      · rintro ⟨e, he⟩
        rw [NextTokenLM.init] at he
        cases he
      · rintro ⟨c, hc, -⟩
        cases hc
    · intro mdl h
      rw [NextTokenLM.init] at h
      simp only [Except.ok.injEq] at h
      subst h
      exact ⟨rfl, rfl, Linear.new_wf _ _⟩
  · by_cases hd : emb.get_output_dim = c.get_input_dim
    · have hinit : NextTokenLM.init vocab emb (some c) ns dr =
          .ok { text_field_embedder := emb, contextualizer := some c,
                language_model_head :=
                  Linear.new c.get_output_dim (vocab.get_vocab_size ns),
                perplexity := Perplexity.init, dropout := dr } := by
        rw [NextTokenLM.init, check_dimensions_match]
        simp [hd]
      constructor
      · constructor
        · rintro ⟨e, he⟩
          rw [hinit] at he
          cases he
        · rintro ⟨c', hc', hne⟩
          simp only [Option.some.injEq] at hc'
          subst hc'
          exact absurd hd.symm hne
      · intro mdl h
        rw [hinit] at h
        simp only [Except.ok.injEq] at h
        subst h
        exact ⟨rfl, rfl, Linear.new_wf _ _⟩
    · have hinit : NextTokenLM.init vocab emb (some c) ns dr =
          .error { message := "text field embedder output" ++ " must match " ++
            "contextualizer input" } := by
        rw [NextTokenLM.init, check_dimensions_match]
        simp [hd]
      constructor
      · constructor
        · intro _
          exact ⟨c, rfl, fun h => hd h.symm⟩
        · intro _
          exact ⟨_, hinit⟩
      · intro mdl h
        rw [hinit] at h
        cases h

/-- C5 (amended): for every `forward` call that returns, with
k = min(vocab_size, 20): `top_probs` and `top_indices` have shape
(batch_size, 1, k) — the singleton middle axis produced by the advanced
indexing slice — every `top_probs` entry lies in [0, 1], each row is
non-increasing along the k axis, and `top_probs[b][0][j]` is the softmax
probability of vocabulary index `top_indices[b][0][j]`. -/
theorem claim5_topk_properties (m : NextTokenLM) (tokens : TokenDict)
    (nm : String) (t : LongTensor1) (tok : LongTensor2)
    (hw : m.language_model_head.wf)
    (hlk : dictGet? tokens "tokens" = some tok)
    (hB : 0 < tok.length)
    (hlen : t.length = tok.length) :
    ∃ out, (m.forward tokens (some [(nm, t)])).1 = .ok out ∧
      out.top_probs.length = tok.length ∧
      out.top_indices.length = tok.length ∧
      (∀ row ∈ out.top_probs, row.length = 1) ∧
      (∀ row ∈ out.top_indices, row.length = 1) ∧
      (∀ b < tok.length,
        ((out.top_probs.getD b []).getD 0 []).length =
          min m.language_model_head.out_features 20 ∧
        ((out.top_indices.getD b []).getD 0 []).length =
          min m.language_model_head.out_features 20 ∧
        (∀ x ∈ (out.top_probs.getD b []).getD 0 [], 0 ≤ x ∧ x ≤ 1) ∧
        ((out.top_probs.getD b []).getD 0 []).Pairwise (fun x y => y ≤ x) ∧
        (∀ j < min m.language_model_head.out_features 20,
          ((out.top_probs.getD b []).getD 0 []).getD j 0 =
            (softmax (rowLogit m tokens b)).getD
              (((out.top_indices.getD b []).getD 0 []).getD j 0) 0)) := by
  rw [forward_ok_spec m tokens nm t tok hw hlk hB hlen]
  refine ⟨_, rfl, ?_, ?_, ?_, ?_, ?_⟩
  · simp
  · simp
  · intro row hrow
    rw [List.mem_map] at hrow
    obtain ⟨i, -, rfl⟩ := hrow
    rfl
  · intro row hrow
    rw [List.mem_map] at hrow
    obtain ⟨i, -, rfl⟩ := hrow
    rfl
  · intro b hb
    have hsm : (softmax (rowLogit m tokens b)).length =
        m.language_model_head.out_features := by
      rw [softmax_length, rowLogit_length m tokens b hw]
    have hk : min (min m.language_model_head.out_features 20)
        (softmax (rowLogit m tokens b)).length =
        min m.language_model_head.out_features 20 := by
      rw [hsm]
      exact Nat.min_eq_left (Nat.min_le_left _ _)
    have hb1 : b < ((List.range tok.length).map (fun i =>
        [(topk (softmax (rowLogit m tokens i))
           (min m.language_model_head.out_features 20)).1])).length := by
      simpa using hb
    have hb2 : b < ((List.range tok.length).map (fun i =>
        [(topk (softmax (rowLogit m tokens i))
           (min m.language_model_head.out_features 20)).2])).length := by
      simpa using hb
    have hgp : (((List.range tok.length).map (fun i =>
        [(topk (softmax (rowLogit m tokens i))
           (min m.language_model_head.out_features 20)).1])).getD b []).getD
        0 [] = (topk (softmax (rowLogit m tokens b))
          (min m.language_model_head.out_features 20)).1 := by
      rw [List.getD_eq_getElem _ _ hb1, List.getElem_map]
      simp [List.getElem_range]
    have hgi : (((List.range tok.length).map (fun i =>
        [(topk (softmax (rowLogit m tokens i))
           (min m.language_model_head.out_features 20)).2])).getD b []).getD
        0 [] = (topk (softmax (rowLogit m tokens b))
          (min m.language_model_head.out_features 20)).2 := by
      rw [List.getD_eq_getElem _ _ hb2, List.getElem_map]
      simp [List.getElem_range]
    rw [hgp, hgi]
    refine ⟨?_, ?_, ?_, ?_, ?_⟩
    · rw [topk_fst_length, hk]
    · rw [topk_snd_length, hk]
    · intro x hx
      have hmem := topk_fst_mem hx
      obtain ⟨h0, h1⟩ := softmax_mem_bounds hmem
      exact ⟨le_of_lt h0, h1⟩
    · exact topk_fst_sorted _ _
    · intro j hj
      apply topk_aligned
      rw [topkPairs_length, hk]
      exact hj

/-- C5 (witness): the amended theorem applied at a concrete model with
vocabulary size 3 and one batch element. -/
theorem claim5_witness :
    ∃ out, (cModel.forward [("tokens", [[1, 2]])]
        (some [("tokens", [0])])).1 = .ok out ∧
      out.top_probs.length = ([[1, 2]] : LongTensor2).length ∧
      out.top_indices.length = ([[1, 2]] : LongTensor2).length ∧
      (∀ row ∈ out.top_probs, row.length = 1) ∧
      (∀ row ∈ out.top_indices, row.length = 1) ∧
      (∀ b < ([[1, 2]] : LongTensor2).length,
        ((out.top_probs.getD b []).getD 0 []).length =
          min cModel.language_model_head.out_features 20 ∧
        ((out.top_indices.getD b []).getD 0 []).length =
          min cModel.language_model_head.out_features 20 ∧
        (∀ x ∈ (out.top_probs.getD b []).getD 0 [], 0 ≤ x ∧ x ≤ 1) ∧
        ((out.top_probs.getD b []).getD 0 []).Pairwise (fun x y => y ≤ x) ∧
        (∀ j < min cModel.language_model_head.out_features 20,
          ((out.top_probs.getD b []).getD 0 []).getD j 0 =
            (softmax (rowLogit cModel [("tokens", [[1, 2]])] b)).getD
              (((out.top_indices.getD b []).getD 0 []).getD j 0) 0)) :=
  claim5_topk_properties cModel [("tokens", [[1, 2]])] "tokens" [0] [[1, 2]]
    (by decide) (by decide) (by decide) (by decide)

/-- C5 (counterexample): at this concrete input batch_size = 1 and
k = min(3, 20) = 3, so the claim's asserted shape (batch_size, k) is
[1, 3]; the returned `top_probs` and `top_indices` instead have the 3-D
shape [1, 1, 3]. -/
theorem claim5_counterexample :
    ∃ out, (cModel.forward [("tokens", [[5, 6]])]
        (some [("tokens", [0])])).1 = .ok out ∧
      shape3 out.top_probs = [1, 1, 3] ∧
      shape3 out.top_indices = [1, 1, 3] ∧
      ([1, 1, 3] : List ℕ) ≠ [1, 3] := by
  rw [forward_ok_spec cModel _ "tokens" [0] [[5, 6]] (by decide) (by decide)
    (by decide) (by decide)]
  have hsm : (softmax (rowLogit cModel [("tokens", [[5, 6]])] 0)).length = 3 := by
    rw [softmax_length, rowLogit_length cModel _ 0 (by decide)]
    rfl
  refine ⟨_, rfl, ?_, ?_, by decide⟩
  · rw [shape3]
    simp only [List.range_succ, List.range_zero, List.nil_append,
      List.map_cons, List.map_nil, List.headD_cons, List.length_cons,
      List.length_nil, topk_fst_length, hsm]
    rfl
  · rw [shape3]
    simp only [List.range_succ, List.range_zero, List.nil_append,
      List.map_cons, List.map_nil, List.headD_cons, List.length_cons,
      List.length_nil, topk_snd_length, hsm]
    rfl

/-- C6 (amended): the representation fed to dropout and the linear head is,
for every batch element, the one at the fixed position
sequence_length − 1 of the contextual tensor (not the last non-padded
position), and the slice has shape (batch_size, 1, encoding_dim) — the
singleton middle axis coming from the (batch_size, 1)-shaped `batch_index`
used in the advanced indexing. -/
theorem claim6_last_position (m : NextTokenLM) (tokens : TokenDict)
    (B T E : ℕ) (hT : 0 < T)
    (hshape : (contextualOf m tokens).hasShape B T E) :
    (lastPositionSlice (contextualOf m tokens) B).hasShape B 1 E ∧
    ∀ b < B, (lastPositionSlice (contextualOf m tokens) B).getD b [] =
      [((contextualOf m tokens).getD b []).getD (T - 1) []] := by
  obtain ⟨hlen, hrows⟩ := hshape
  have hrow : ∀ b < B, ((contextualOf m tokens).getD b []).length = T ∧
      ∀ v ∈ (contextualOf m tokens).getD b [], v.length = E := by
    intro b hb
    have hb' : b < (contextualOf m tokens).length := by rw [hlen]; exact hb
    rw [List.getD_eq_getElem _ _ hb']
    exact hrows _ (List.getElem_mem hb')
  constructor
  · refine ⟨by simp [lastPositionSlice], ?_⟩
    intro mr hmr
    rw [lastPositionSlice, List.mem_map] at hmr
    obtain ⟨i, hi, rfl⟩ := hmr
    rw [List.mem_range] at hi
    obtain ⟨hlenT, hvE⟩ := hrow i hi
    refine ⟨rfl, ?_⟩
    intro v hv
    rw [List.mem_singleton] at hv
    subst hv
    rw [lastOf, hlenT]
    have hT1 : T - 1 < T := Nat.sub_lt hT Nat.one_pos
    have hT1' : T - 1 < ((contextualOf m tokens).getD i []).length := by
      rwa [hlenT]
    rw [List.getD_eq_getElem _ _ hT1']
    exact hvE _ (List.getElem_mem hT1')
  · intro b hb
    have hb1 : b < ((List.range B).map (fun i =>
        [lastOf ((contextualOf m tokens).getD i [])])).length := by simpa using hb
    rw [lastPositionSlice, List.getD_eq_getElem _ _ hb1, List.getElem_map]
    obtain ⟨hlenT, -⟩ := hrow b hb
    rw [List.getElem_range, lastOf, hlenT]

/-- C6 (witness): the amended theorem applied at the concrete model, whose
contextual tensor (the embeddings, there being no contextualizer) has shape
(1, 2, 2). -/
theorem claim6_witness :
    (lastPositionSlice (contextualOf cModel [("tokens", [[5, 6]])]) 1).hasShape
        1 1 2 ∧
    ∀ b < 1,
      (lastPositionSlice (contextualOf cModel [("tokens", [[5, 6]])]) 1).getD
          b [] =
        [((contextualOf cModel [("tokens", [[5, 6]])]).getD b []).getD
          (2 - 1) []] :=
  claim6_last_position cModel [("tokens", [[5, 6]])] 1 2 2 (by decide)
    (by decide)

/-- C6 (counterexample): at a concrete (1, 2, 2) contextual tensor the
extracted slice has shape [1, 1, 2], not the claim's asserted
(batch_size, encoding_dim) = [1, 2]. -/
theorem claim6_counterexample :
    shape3 (lastPositionSlice (contextualOf cModel [("tokens", [[5, 6]])]) 1)
        = [1, 1, 2] ∧
    ([1, 1, 2] : List ℕ) ≠ [1, 2] :=
  ⟨rfl, by decide⟩

theorem zipWith_eq_map_zip {α β γ : Type} (f : α → β → γ) :
    ∀ (l1 : List α) (l2 : List β),
      List.zipWith f l1 l2 = (l1.zip l2).map (fun p => f p.1 p.2) := by
  intro l1
  induction l1 with
  | nil => intro l2; simp
  | cons a l1 ih =>
    intro l2
    cases l2 with
    | nil => simp
    | cons b l2 => simp [List.zip_cons_cons, ih]

theorem cross_entropy_eq_reference (L : Mat) (ts : List ℕ) :
    cross_entropy L ts = reference_cross_entropy L ts := by
  rw [cross_entropy, reference_cross_entropy, zipWith_eq_map_zip]
  rfl

/-- C7: on a successful `forward` call with targets, the returned loss is
exactly the mean cross-entropy of the logits reshaped to
(batch_size, vocab_size) against the targets reshaped to (batch_size,),
as computed by an independent reference formula over the same per-row
logits. -/
theorem claim7_loss_matches_reference (m : NextTokenLM) (tokens : TokenDict)
    (nm : String) (t : LongTensor1) (tok : LongTensor2)
    (hw : m.language_model_head.wf)
    (hlk : dictGet? tokens "tokens" = some tok)
    (hB : 0 < tok.length)
    (hlen : t.length = tok.length) :
    ∃ out, (m.forward tokens (some [(nm, t)])).1 = .ok out ∧
      out.loss =
        some (reference_cross_entropy (rowLogits m tokens tok.length) t) := by
  rw [forward_ok_spec m tokens nm t tok hw hlk hB hlen]
  exact ⟨_, rfl, by rw [cross_entropy_eq_reference]⟩

/-- C7 (witness): the theorem applied at a concrete model and batch. -/
theorem claim7_witness :
    ∃ out, (cModel.forward [("tokens", [[1, 2]])]
        (some [("tokens", [2])])).1 = .ok out ∧
      out.loss = some (reference_cross_entropy
        (rowLogits cModel [("tokens", [[1, 2]])]
          ([[1, 2]] : LongTensor2).length) [2]) :=
  claim7_loss_matches_reference cModel [("tokens", [[1, 2]])] "tokens" [2]
    [[1, 2]] (by decide) (by decide) (by decide) (by decide)

theorem applyLossUpdates_perplexity :
    ∀ (losses : List ℝ) (m : NextTokenLM),
      (applyLossUpdates m losses).perplexity =
        losses.foldl Perplexity.update m.perplexity := by
  intro losses
  induction losses with
  | nil => intro m; rfl
  | cons l ls ih =>
    intro m
    rw [applyLossUpdates, List.foldl_cons, List.foldl_cons]
    exact ih { m with perplexity := m.perplexity.update l }

theorem foldl_perplexity_update (losses : List ℝ) :
    ∀ p : Perplexity, losses.foldl Perplexity.update p =
      { total_loss := p.total_loss + losses.sum,
        count := p.count + losses.length } := by
  induction losses with
  | nil => intro p; simp
  | cons l ls ih =>
    intro p
    rw [List.foldl_cons, ih]
    simp only [Perplexity.update, List.sum_cons, List.length_cons,
      Perplexity.mk.injEq]
    constructor
    · ring
    · omega

theorem get_metrics_after_reset (m : NextTokenLM) (losses : List ℝ) :
    ((applyLossUpdates (m.get_metrics true).2 losses).get_metrics false).1 =
      if losses.length = 0 then 0
      else Real.exp (losses.sum / losses.length) := by
  have h2 : (m.get_metrics true).2.perplexity = Perplexity.init := rfl
  show ((applyLossUpdates (m.get_metrics true).2 losses).perplexity.get_metric
      false).1 = _
  rw [applyLossUpdates_perplexity, h2, foldl_perplexity_update,
    Perplexity.get_metric]
  simp [Perplexity.init]

/-- C8: `get_metrics(reset=True)` returns the current perplexity value (the
same value a non-resetting read would give) and clears the accumulator back
to its initial no-observations state; a later read therefore reports the
perplexity of exactly the losses observed after the reset — independent of
all pre-reset history — namely exp(mean of the new losses). -/
theorem claim8_reset_windows (m1 m2 : NextTokenLM) (losses : List ℝ) :
    (m1.get_metrics true).1 = (m1.get_metrics false).1 ∧
    (m1.get_metrics true).2.perplexity = Perplexity.init ∧
    ((applyLossUpdates (m1.get_metrics true).2 losses).get_metrics false).1 =
      ((applyLossUpdates (m2.get_metrics true).2 losses).get_metrics
        false).1 ∧
    (losses ≠ [] →
      ((applyLossUpdates (m1.get_metrics true).2 losses).get_metrics
          false).1 = Real.exp (losses.sum / losses.length)) := by
  refine ⟨rfl, rfl, ?_, ?_⟩
  · rw [get_metrics_after_reset, get_metrics_after_reset]
  · intro hne
    rw [get_metrics_after_reset]
    rw [if_neg (by simpa using fun h => hne (List.length_eq_zero.mp h))]

/-- C8 (witness): the theorem applied at two concrete models with different
pre-reset accumulator histories and one post-reset loss observation. -/
theorem claim8_witness :
    (cModel.get_metrics true).1 = (cModel.get_metrics false).1 ∧
    (cModel.get_metrics true).2.perplexity = Perplexity.init ∧
    ((applyLossUpdates (cModel.get_metrics true).2 [0]).get_metrics
        false).1 =
      ((applyLossUpdates (({ cModel with
          perplexity := { total_loss := 5, count := 2 } } :
            NextTokenLM).get_metrics true).2 [0]).get_metrics false).1 ∧
    (([0] : List ℝ) ≠ [] →
      ((applyLossUpdates (cModel.get_metrics true).2 [0]).get_metrics
          false).1 =
        Real.exp (([0] : List ℝ).sum / ([0] : List ℝ).length)) :=
  claim8_reset_windows cModel
    { cModel with perplexity := { total_loss := 5, count := 2 } } [0]

end AllenNLP
